import Mathlib

/-! Verification of the primitive catalog and dispatcher of `src/primitive.rs`
(the execution core of a stack-based array language).  The file shallowly
embeds the `Primitive` enumeration, its static metadata tables
(`name`, `ascii`, `unicode`, `from_simple`, `from_unicode`, `args`,
`outputs`, `inverse`, `from_name`) and the dispatcher `Primitive::run`.
External collaborators — the value/array kernels, the VM's `CallEnv.call`,
`Function::inverse`, and the I/O subsystem — are not part of the source
file; they are represented by a record of oracles (`Ext`), and every
theorem quantifies over their behaviour, so a conclusion that holds for
every `Ext` holds in particular for the real collaborators. -/

namespace Uiua

/-- Element type of an array.  Modelled from the spec: the array kernel is
external to the source file; only the type tag is observable here (the
`Scan` empty case pushes an empty array of the same element type). -/
inductive Ty where
  | num
  | ch
  | value
deriving DecidableEq

/-- A machine number: a finite double modelled as a rational, or `+∞`
(pushed by the `Infinity` primitive).  NaN and `-∞` do not arise on any
code path a claim exercises. -/
inductive Num where
  | fin (q : ℚ)
  | inf
deriving DecidableEq

/-- Modelled from the spec: the external I/O operation sub-enumeration
(`io.rs` is not part of the source under verification).  An operation is
an abstract handle; its name/arity/semantics are oracles in `Ext`. -/
structure IoOp where
  idx : Nat
deriving DecidableEq

/-- A runtime value: number, character, function handle (the function's
semantics are the oracle `Ext.call`), or array given by element type and
leading-axis cells.  The source array also carries a shape vector; every
claim below touches arrays only through their leading-axis cells, which
is what the model keeps. -/
inductive Value where
  | num (n : Num)
  | ch (c : Char)
  | fn (id : Nat)
  | arr (ty : Ty) (cells : List Value)

mutual
/-- Structural equality of values (Rust's derived `PartialEq` on `Value`;
function values compare by handle). -/
def Value.beq : Value → Value → Bool
  | .num a, .num b => a == b
  | .ch a, .ch b => a == b
  | .fn a, .fn b => a == b
  | .arr t x, .arr u y => t == u && Value.beqList x y
  | _, _ => false
/-- Structural equality of cell lists. -/
def Value.beqList : List Value → List Value → Bool
  | [], [] => true
  | x :: xs, y :: ys => Value.beq x y && Value.beqList xs ys
  | _, _ => false
end

/-- `Value::is_array`. -/
def Value.is_array : Value → Bool
  | .arr _ _ => true
  | _ => false

/-- `Value::is_function`. -/
def Value.is_function : Value → Bool
  | .fn _ => true
  | _ => false

/-- Modelled from the spec: `Value::as_nat` (`value.rs` is external);
some-value iff the value is a number that is a non-negative integer. -/
def Value.as_nat : Value → Option Nat
  | .num (.fin q) => if q.den = 1 ∧ 0 ≤ q.num then some q.num.toNat else none
  | _ => none

/-- The value stack; the head of the list is the top of the stack. -/
abbrev Stack := List Value

/-- Outcome of running a primitive: the VM mutates the stack in place, so
an error is paired with the stack state at the moment it was raised (this
is what `Try` truncates). -/
inductive StepRes where
  | ok (st : Stack)
  | err (e : String) (st : Stack)

/-- `Value::from(String)`: a string becomes a character array (used when
`Try` pushes an error's message). -/
def strVal (s : String) : Value :=
  .arr .ch (s.data.map Value.ch)

/-- Rust `str::to_lowercase`, adequate for the catalog's ASCII names;
expressed on the character list so the kernel can evaluate it. -/
def strToLower (s : String) : String :=
  String.mk (s.data.map Char.toLower)

/-- Rust `str::starts_with`, expressed on the character lists so the
kernel can evaluate it. -/
def strStartsWith (s pre : String) : Bool :=
  pre.data.isPrefixOf s.data

/-- The characters of a character array, as a string (`Array::chars`). -/
def charsOf (l : List Value) : String :=
  String.mk (l.filterMap fun v => match v with | .ch c => some c | _ => none)

/-- Rust's `{:?}` rendering of a string, as used by the `Use` error. -/
def quoteStr (s : String) : String :=
  "\"" ++ s ++ "\""

/-- `Vec::truncate` on the stack: keep the bottom `n` values (no-op when
the stack already holds at most `n`). -/
def truncate (n : Nat) (st : Stack) : Stack :=
  st.drop (st.length - n)

/-- The external collaborators of `primitive.rs`, as oracles: the value
and array kernels (`Value::add`, `Value::sort`, …), the `CallEnv`
facilities that re-enter the VM, `Function::inverse`, function identities,
array normalization, and the I/O subsystem.  Theorems quantify over this
record. -/
structure Ext where
  not : Value → Except String Value
  neg : Value → Except String Value
  abs : Value → Except String Value
  sign : Value → Except String Value
  sqrt : Value → Except String Value
  sin : Value → Except String Value
  cos : Value → Except String Value
  asin : Value → Except String Value
  acos : Value → Except String Value
  floor : Value → Except String Value
  ceil : Value → Except String Value
  round : Value → Except String Value
  range : Value → Except String Value
  first : Value → Except String Value
  normalize : Value → Except String Value
  sort : Value → Except String Value
  grade : Value → Except String Value
  indices : Value → Except String Value
  classify : Value → Except String Value
  deduplicate : Value → Except String Value
  parse_num : Value → Except String Value
  transpose : Value → Value
  enclose : Value → Value
  reverse : Value → Value
  deshape : Value → Value
  is_eq : Value → Value → Except String Value
  is_ne : Value → Value → Except String Value
  is_lt : Value → Value → Except String Value
  is_le : Value → Value → Except String Value
  is_gt : Value → Value → Except String Value
  is_ge : Value → Value → Except String Value
  add : Value → Value → Except String Value
  sub : Value → Value → Except String Value
  mul : Value → Value → Except String Value
  div : Value → Value → Except String Value
  modulus : Value → Value → Except String Value
  pow : Value → Value → Except String Value
  root : Value → Value → Except String Value
  min : Value → Value → Except String Value
  max : Value → Value → Except String Value
  atan2 : Value → Value → Except String Value
  join : Value → Value → Except String Value
  reshape : Value → Value → Except String Value
  pick : Value → Value → Except String Value
  replicate : Value → Value → Except String Value
  take : Value → Value → Except String Value
  drop : Value → Value → Except String Value
  rotate : Value → Value → Except String Value
  couple : Value → Value → Except String Value
  select : Value → Value → Except String Value
  windows : Value → Value → Except String Value
  group : Value → Value → Except String Value
  index_of : Value → Value → Except String Value
  pair : Value → Value → Value
  member : Value → Value → Value
  put : Value → Value → Value → Except String Value
  vlen : Value → Nat
  vrank : Value → Nat
  vshape : Value → List Nat
  toStr : Value → String
  call : Nat → Stack → StepRes
  inv : Nat → Bool → Except String Nat
  fname : Nat → Option String
  normTy : List Value → Ty
  ioArgs : IoOp → Nat
  ioOutputs : IoOp → Option Nat
  ioName : IoOp → String
  ioFromName : String → Option IoOp
  ioRun : IoOp → Stack → StepRes

/-- Diagnostic for popping an empty stack (`CallEnv::pop`'s error; the
precise text lives in the external VM). -/
def popMsg : String := "stack underflow"

/-- `CallEnv::call`: pop the top of the stack, which must be a function
value, and invoke it on the remaining stack.  Calling a non-function is
handled by the external VM; modelled from the spec ("invokes the
top-of-stack function value") as an error, a path no claim exercises. -/
def callTop (E : Ext) : Stack → StepRes
  | .fn id :: rest => E.call id rest
  | _ :: rest => .err "Attempted to call a non-function" rest
  | [] => .err popMsg []

/-- `CallEnv::monadic_env` and `monadic_mut_env`: pop one operand, apply a
fallible kernel, push the result. -/
def monadicE (k : Value → Except String Value) : Stack → StepRes
  | [] => .err popMsg []
  | v :: rest =>
    match k v with
    | .ok r => .ok (r :: rest)
    | .error e => .err e rest

/-- `CallEnv::monadic` and `monadic_mut`: pop one operand, apply an
infallible kernel, push the result. -/
def monadicP (k : Value → Value) : Stack → StepRes
  | [] => .err popMsg []
  | v :: rest => .ok (k v :: rest)

/-- `CallEnv::dyadic_env` and `dyadic_mut_env`: pop two operands, apply a
fallible kernel, push the result. -/
def dyadicE (k : Value → Value → Except String Value) : Stack → StepRes
  | a :: b :: rest =>
    match k a b with
    | .ok r => .ok (r :: rest)
    | .error e => .err e rest
  | st => .err popMsg st.tail

/-- `CallEnv::dyadic` and `dyadic_mut`: pop two operands, apply an
infallible kernel, push the result. -/
def dyadicP (k : Value → Value → Value) : Stack → StepRes
  | a :: b :: rest => .ok (k a b :: rest)
  | st => .err popMsg st.tail

/-- The condition test of `Assert`: the popped condition must be a number
within `1e-10` of `1.0`. -/
def truthyNum : Num → Bool
  | .fin q => |q - 1| < 1 / 10 ^ 10
  | .inf => false

/-- The `Put` arm: pop `index`, `value`, `array`, apply the kernel
`index.put(value, array, env)`, push the mutated index holder. -/
def putE (k : Value → Value → Value → Except String Value) : Stack → StepRes
  | index :: value :: array :: rest =>
    match k index value array with
    | .ok r => .ok (r :: rest)
    | .error e => .err e rest
  | st => .err popMsg st.tail

/-- The `Dup` arm: clone the top of the stack and push the clone. -/
def dupRun : Stack → StepRes
  | [] => .err popMsg []
  | v :: rest => .ok (v :: v :: rest)

/-- The `Flip` arm: swap the top two values. -/
def flipRun : Stack → StepRes
  | a :: b :: rest => .ok (b :: a :: rest)
  | st => .err popMsg st.tail

/-- The `Over` arm: duplicate the second-from-top above the top. -/
def overRun : Stack → StepRes
  | a :: b :: rest => .ok (b :: a :: b :: rest)
  | st => .err popMsg st.tail

/-- The `Pop` arm: drop the top of the stack. -/
def popRun : Stack → StepRes
  | [] => .err popMsg []
  | _ :: rest => .ok rest

/-- The `Assert` arm: pop the message, then the condition; the condition
must be a number within `1e-10` of `1.0`, otherwise error with the
message's display form. -/
def assertRun (E : Ext) : Stack → StepRes
  | msg :: .num n :: rest =>
    if truthyNum n then .ok rest else .err (E.toStr msg) rest
  | msg :: _ :: rest => .err (E.toStr msg) rest
  | st => .err popMsg st.tail

/-- The exact rational value of the `f64` constant `PI`. -/
def f64Pi : ℚ := 884279719003555 / 281474976710656

/-- The lexer's simple-token tags that the primitive table names
(`lex.rs` is external; only these seven tags appear in the table). -/
inductive Simple where
  | Backtick
  | Equal
  | BangEqual
  | LessEqual
  | GreaterEqual
  | Star
  | Percent
deriving DecidableEq

/-- The `Primitive` enumeration, in source declaration order; `Io` embeds
the external I/O sub-enumeration. -/
inductive Primitive where
  | Dup | Over | Flip | Pop | Unpack
  | Sign | Not | Neg | Abs | Sqrt | Sin | Cos | Asin | Acos | Floor | Ceil | Round
  | Eq | Ne | Lt | Le | Gt | Ge | Add | Sub | Mul | Div | Mod | Pow | Root | Min | Max | Atan
  | Len | Rank | Shape | Range | First | Reverse | Enclose | Normalize | Deshape
  | Transpose | Sort | Grade | Indices | Classify | Deduplicate
  | Match | NoMatch | Join | Pair | Couple | Pick | Select | Take | Drop | Reshape
  | Rotate | Windows | Replicate | Member | Group | IndexOf
  | Put
  | Reduce | Fold | Scan | Each | Cells | Table | Repeat | Invert | Under | Try
  | Assert | Nop | Call | String | Parse | Use
  | Pi | Infinity
  | Io (op : IoOp)

set_option maxHeartbeats 1600000 in
/-- `Primitive::ALL`: the closed catalog, in declaration order (the `Io`
wrapper is not part of it, exactly as in the source). -/
def Primitive.ALL : List Primitive :=
  [.Dup, .Over, .Flip, .Pop, .Unpack,
   .Sign, .Not, .Neg, .Abs, .Sqrt, .Sin, .Cos, .Asin, .Acos, .Floor, .Ceil, .Round,
   .Eq, .Ne, .Lt, .Le, .Gt, .Ge, .Add, .Sub, .Mul, .Div, .Mod, .Pow, .Root, .Min, .Max, .Atan,
   .Len, .Rank, .Shape, .Range, .First, .Reverse, .Enclose, .Normalize, .Deshape,
   .Transpose, .Sort, .Grade, .Indices, .Classify, .Deduplicate,
   .Match, .NoMatch, .Join, .Pair, .Couple, .Pick, .Select, .Take, .Drop, .Reshape,
   .Rotate, .Windows, .Replicate, .Member, .Group, .IndexOf,
   .Put,
   .Reduce, .Fold, .Scan, .Each, .Cells, .Table, .Repeat, .Invert, .Under, .Try,
   .Assert, .Nop, .Call, .String, .Parse, .Use,
   .Pi, .Infinity]

/-- `Primitive::name`: the optional canonical (lowercase) identifier of
each primitive, from the `primitive!` table. -/
def primName (E : Ext) : Primitive → Option String
  | .Dup => some "duplicate"
  | .Over => some "over"
  | .Flip => some "flip"
  | .Pop => some "pop"
  | .Unpack => some "unpack"
  | .Sign => some "sign"
  | .Not => some "not"
  | .Neg => some "negate"
  | .Abs => some "absolute"
  | .Sqrt => some "sqrt"
  | .Sin => some "sine"
  | .Cos => some "cosine"
  | .Asin => none
  | .Acos => none
  | .Floor => some "floor"
  | .Ceil => some "ceiling"
  | .Round => some "round"
  | .Eq => some "equals"
  | .Ne => some "not equals"
  | .Lt => some "less than"
  | .Le => some "less or equal"
  | .Gt => some "greater than"
  | .Ge => some "greater or equal"
  | .Add => some "add"
  | .Sub => some "subtract"
  | .Mul => some "multiply"
  | .Div => some "divide"
  | .Mod => some "modulus"
  | .Pow => some "power"
  | .Root => none
  | .Min => some "minimum"
  | .Max => some "maximum"
  | .Atan => some "atangent"
  | .Len => some "length"
  | .Rank => some "rank"
  | .Shape => some "shape"
  | .Range => some "range"
  | .First => some "first"
  | .Reverse => some "reverse"
  | .Enclose => some "enclose"
  | .Normalize => some "normalize"
  | .Deshape => some "deshape"
  | .Transpose => some "transpose"
  | .Sort => some "sort"
  | .Grade => some "grade"
  | .Indices => some "indices"
  | .Classify => some "classify"
  | .Deduplicate => some "deduplicate"
  | .Match => some "match"
  | .NoMatch => some "notmatch"
  | .Join => some "join"
  | .Pair => some "pair"
  | .Couple => some "couple"
  | .Pick => some "pick"
  | .Select => some "select"
  | .Take => some "take"
  | .Drop => some "drop"
  | .Reshape => some "reshape"
  | .Rotate => some "rotate"
  | .Windows => some "windows"
  | .Replicate => some "replicate"
  | .Member => some "member"
  | .Group => some "group"
  | .IndexOf => some "indexof"
  | .Put => none
  | .Reduce => some "reduce"
  | .Fold => some "fold"
  | .Scan => some "scan"
  | .Each => some "each"
  | .Cells => some "cells"
  | .Table => some "table"
  | .Repeat => some "repeat"
  | .Invert => some "invert"
  | .Under => some "under"
  | .Try => some "try"
  | .Assert => some "assert"
  | .Nop => some "noop"
  | .Call => some "call"
  | .String => some "string"
  | .Parse => some "parsenumber"
  | .Use => some "use"
  | .Pi => some "pi"
  | .Infinity => some "infinity"
  | .Io op => some (E.ioName op)

/-- `Primitive::ascii`: the optional lexer token of each primitive. -/
def Primitive.ascii : Primitive → Option Simple
  | .Neg => some .Backtick
  | .Eq => some .Equal
  | .Ne => some .BangEqual
  | .Le => some .LessEqual
  | .Ge => some .GreaterEqual
  | .Mul => some .Star
  | .Div => some .Percent
  | _ => none

/-- `Primitive::unicode`: the optional glyph of each primitive. -/
def Primitive.unicode : Primitive → Option Char
  | .Dup => some '.'
  | .Over => some ','
  | .Flip => some '~'
  | .Pop => some ';'
  | .Unpack => some '⊔'
  | .Sign => some '$'
  | .Not => some '¬'
  | .Neg => some '¯'
  | .Abs => some '⌵'
  | .Sqrt => some '√'
  | .Floor => some '⌊'
  | .Ceil => some '⌈'
  | .Round => some '⁅'
  | .Ne => some '≠'
  | .Lt => some '<'
  | .Le => some '≤'
  | .Gt => some '>'
  | .Ge => some '≥'
  | .Add => some '+'
  | .Sub => some '-'
  | .Mul => some '×'
  | .Div => some '÷'
  | .Mod => some '◿'
  | .Pow => some 'ⁿ'
  | .Min => some '↧'
  | .Max => some '↥'
  | .Len => some '⇀'
  | .Rank => some '⸫'
  | .Shape => some '△'
  | .Range => some '⇡'
  | .First => some '⊢'
  | .Reverse => some '⇌'
  | .Enclose => some '⊓'
  | .Normalize => some '□'
  | .Deshape => some '♭'
  | .Transpose => some '⍉'
  | .Sort => some '∧'
  | .Grade => some '⍋'
  | .Indices => some '⊘'
  | .Classify => some '⊛'
  | .Deduplicate => some '⊝'
  | .Match => some '≅'
  | .NoMatch => some '≇'
  | .Join => some '≍'
  | .Pair => some '⚇'
  | .Couple => some '⊟'
  | .Pick => some '⊡'
  | .Select => some '⊏'
  | .Take => some '↙'
  | .Drop => some '↘'
  | .Reshape => some '↯'
  | .Rotate => some '↻'
  | .Windows => some '◫'
  | .Replicate => some '‡'
  | .Member => some '∈'
  | .Group => some '⊕'
  | .IndexOf => some '⊙'
  | .Reduce => some '/'
  | .Fold => some '⌿'
  | .Scan => some '\\'
  | .Each => some '⸪'
  | .Cells => some '≡'
  | .Table => some '⊞'
  | .Repeat => some '⍥'
  | .Invert => some '↩'
  | .Under => some '⍜'
  | .Try => some '?'
  | .Assert => some '!'
  | .Nop => some '·'
  | .Call => some ':'
  | .Pi => some 'π'
  | .Infinity => some '∞'
  | _ => none

/-- `Primitive::from_simple`: reverse lookup of the ASCII token table. -/
def Primitive.from_simple : Simple → Option Primitive
  | .Backtick => some .Neg
  | .Equal => some .Eq
  | .BangEqual => some .Ne
  | .LessEqual => some .Le
  | .GreaterEqual => some .Ge
  | .Star => some .Mul
  | .Percent => some .Div

/-- `Primitive::from_unicode`: reverse lookup of the glyph table. -/
def Primitive.from_unicode : Char → Option Primitive
  | '.' => some .Dup
  | ',' => some .Over
  | '~' => some .Flip
  | ';' => some .Pop
  | '⊔' => some .Unpack
  | '$' => some .Sign
  | '¬' => some .Not
  | '¯' => some .Neg
  | '⌵' => some .Abs
  | '√' => some .Sqrt
  | '⌊' => some .Floor
  | '⌈' => some .Ceil
  | '⁅' => some .Round
  | '≠' => some .Ne
  | '<' => some .Lt
  | '≤' => some .Le
  | '>' => some .Gt
  | '≥' => some .Ge
  | '+' => some .Add
  | '-' => some .Sub
  | '×' => some .Mul
  | '÷' => some .Div
  | '◿' => some .Mod
  | 'ⁿ' => some .Pow
  | '↧' => some .Min
  | '↥' => some .Max
  | '⇀' => some .Len
  | '⸫' => some .Rank
  | '△' => some .Shape
  | '⇡' => some .Range
  | '⊢' => some .First
  | '⇌' => some .Reverse
  | '⊓' => some .Enclose
  | '□' => some .Normalize
  | '♭' => some .Deshape
  | '⍉' => some .Transpose
  | '∧' => some .Sort
  | '⍋' => some .Grade
  | '⊘' => some .Indices
  | '⊛' => some .Classify
  | '⊝' => some .Deduplicate
  | '≅' => some .Match
  | '≇' => some .NoMatch
  | '≍' => some .Join
  | '⚇' => some .Pair
  | '⊟' => some .Couple
  | '⊡' => some .Pick
  | '⊏' => some .Select
  | '↙' => some .Take
  | '↘' => some .Drop
  | '↯' => some .Reshape
  | '↻' => some .Rotate
  | '◫' => some .Windows
  | '‡' => some .Replicate
  | '∈' => some .Member
  | '⊕' => some .Group
  | '⊙' => some .IndexOf
  | '/' => some .Reduce
  | '⌿' => some .Fold
  | '\\' => some .Scan
  | '⸪' => some .Each
  | '≡' => some .Cells
  | '⊞' => some .Table
  | '⍥' => some .Repeat
  | '↩' => some .Invert
  | '⍜' => some .Under
  | '?' => some .Try
  | '!' => some .Assert
  | '·' => some .Nop
  | ':' => some .Call
  | 'π' => some .Pi
  | '∞' => some .Infinity
  | _ => none

/-- `Primitive::args`: declared input arity.  Modifiers fall through the
macro to `None`; `Io` delegates to the external sub-enumeration. -/
def Primitive.args (E : Ext) : Primitive → Option Nat
  | .Dup => some 1
  | .Over => some 2
  | .Flip => some 2
  | .Pop => some 1
  | .Unpack => some 1
  | .Sign => some 1
  | .Not => some 1
  | .Neg => some 1
  | .Abs => some 1
  | .Sqrt => some 1
  | .Sin => some 1
  | .Cos => some 1
  | .Asin => some 1
  | .Acos => some 1
  | .Floor => some 1
  | .Ceil => some 1
  | .Round => some 1
  | .Eq => some 2
  | .Ne => some 2
  | .Lt => some 2
  | .Le => some 2
  | .Gt => some 2
  | .Ge => some 2
  | .Add => some 2
  | .Sub => some 2
  | .Mul => some 2
  | .Div => some 2
  | .Mod => some 2
  | .Pow => some 2
  | .Root => some 2
  | .Min => some 2
  | .Max => some 2
  | .Atan => some 2
  | .Len => some 1
  | .Rank => some 1
  | .Shape => some 1
  | .Range => some 1
  | .First => some 1
  | .Reverse => some 1
  | .Enclose => some 1
  | .Normalize => some 1
  | .Deshape => some 1
  | .Transpose => some 1
  | .Sort => some 1
  | .Grade => some 1
  | .Indices => some 1
  | .Classify => some 1
  | .Deduplicate => some 1
  | .Match => some 2
  | .NoMatch => some 2
  | .Join => some 2
  | .Pair => some 2
  | .Couple => some 2
  | .Pick => some 2
  | .Select => some 2
  | .Take => some 2
  | .Drop => some 2
  | .Reshape => some 2
  | .Rotate => some 2
  | .Windows => some 2
  | .Replicate => some 2
  | .Member => some 2
  | .Group => some 2
  | .IndexOf => some 2
  | .Put => some 3
  | .Assert => some 2
  | .Nop => some 0
  | .Call => some 1
  | .String => some 1
  | .Parse => some 1
  | .Use => some 1
  | .Pi => some 0
  | .Infinity => some 0
  | .Io op => some (E.ioArgs op)
  | _ => none

/-- `Primitive::outputs`: declared output arity; entries without an
explicit output count default to `Some(1)`. -/
def Primitive.outputs (E : Ext) : Primitive → Option Nat
  | .Dup => some 2
  | .Over => some 3
  | .Flip => some 2
  | .Pop => some 0
  | .Unpack => none
  | .Call => none
  | .Pi => some 1
  | .Infinity => some 1
  | .Io op => E.ioOutputs op
  | _ => some 1

/-- `Primitive::inverse`: the partial inverse table, exactly the arms of
the source `match` (note there are no `Asin`, `Acos` or `Put` arms). -/
def Primitive.inverse : Primitive → Option Primitive
  | .Flip => some .Flip
  | .Neg => some .Neg
  | .Not => some .Not
  | .Sin => some .Asin
  | .Cos => some .Acos
  | .Reverse => some .Reverse
  | .Add => some .Sub
  | .Sub => some .Add
  | .Mul => some .Div
  | .Div => some .Mul
  | .Pow => some .Root
  | .Root => some .Pow
  | .Pick => some .Put
  | _ => none

/-- The body of `Primitive::from_name` after the `let lower =
name.to_lowercase()` binding (kept as a parameter so proofs can rewrite
it): I/O catalog first, then the short tokens `pi`/`π`, then
unambiguous-prefix search of the catalog. -/
def fromNameLower (E : Ext) (name lower : String) : Option Primitive :=
  match E.ioFromName lower with
  | some io => some (.Io io)
  | none =>
    if lower == "pi" || lower == "π" then some .Pi
    else if name.utf8ByteSize < 3 then none
    else
      match List.filter
          (fun p => (primName E p).elim false (fun i => strStartsWith (strToLower i) lower))
          Primitive.ALL with
      | [] => none
      | r :: rest =>
        if (primName E r).elim false (fun i => i == lower) || rest.isEmpty
        then some r else none

/-- `Primitive::from_name`: prefix resolution of a primitive name. -/
def fromName (E : Ext) (name : String) : Option Primitive :=
  fromNameLower E name (strToLower name)

/-- The iteration of `Reduce`: for each remaining cell, push the cell,
push the accumulator above it, push `f`, call, and pop the result into
the accumulator; finally push the accumulator. -/
def reduceGo (E : Ext) (f : Value) : Value → List Value → Stack → StepRes
  | acc, [], st => .ok (acc :: st)
  | acc, cell :: cells, st =>
    match callTop E (f :: acc :: cell :: st) with
    | .ok (r :: st2) => reduceGo E f r cells st2
    | .ok [] => .err popMsg []
    | .err e s => .err e s

/-- The iteration of `Fold`: for each cell, push the accumulator, push
the cell above it, push `f`, call, and pop the result into the
accumulator; finally push the accumulator. -/
def foldGo (E : Ext) (f : Value) : Value → List Value → Stack → StepRes
  | acc, [], st => .ok (acc :: st)
  | acc, cell :: cells, st =>
    match callTop E (f :: cell :: acc :: st) with
    | .ok (r :: st2) => foldGo E f r cells st2
    | .ok [] => .err popMsg []
    | .err e s => .err e s

/-- The iteration of `Scan`: as Reduce's, but every accumulator value
(including the initial cell) is appended to the output buffer, which is
finally pushed as a normalized array. -/
def scanGo (E : Ext) (f : Value) : Value → List Value → List Value → Stack → StepRes
  | _, [], scanned, st => .ok (.arr (E.normTy scanned) scanned :: st)
  | acc, cell :: cells, scanned, st =>
    match callTop E (f :: acc :: cell :: st) with
    | .ok (r :: st2) => scanGo E f r cells (scanned ++ [r]) st2
    | .ok [] => .err popMsg []
    | .err e s => .err e s

/-- The iteration of `Repeat`: `n` times, push the accumulator, push `f`,
call, and pop the result into the accumulator; finally push it. -/
def repeatGo (E : Ext) (f : Value) : Nat → Value → Stack → StepRes
  | 0, acc, st => .ok (acc :: st)
  | n + 1, acc, st =>
    match callTop E (f :: acc :: st) with
    | .ok (r :: st2) => repeatGo E f n r st2
    | .ok [] => .err popMsg []
    | .err e s => .err e s

/-- The iteration of `Each`/`Cells`: apply `f` to each element, collect
the results, and push them as one normalized array.  (The model's arrays
collapse the shape vector to the cell list, so `Each`'s flat iteration
and `Cells`' leading-axis iteration coincide; no claim distinguishes
them.) -/
def eachGo (E : Ext) (f : Value) : List Value → List Value → Stack → StepRes
  | [], done, st => .ok (.arr (E.normTy done) done :: st)
  | v :: vs, done, st =>
    match callTop E (f :: v :: st) with
    | .ok (r :: st2) => eachGo E f vs (done ++ [r]) st2
    | .ok [] => .err popMsg []
    | .err e s => .err e s

/-- One row of `Table`: apply `f` to the fixed cell `a` of `xs` and every
cell `b` of `ys` (pushed beneath `a`), collecting the results. -/
def tableRow (E : Ext) (f a : Value) :
    List Value → List Value → Stack → Except (String × Stack) (List Value × Stack)
  | [], row, st => .ok (row, st)
  | b :: bs, row, st =>
    match callTop E (f :: a :: b :: st) with
    | .ok (r :: st2) => tableRow E f a bs (row ++ [r]) st2
    | .ok [] => .error (popMsg, [])
    | .err e s => .error (e, s)

/-- The outer loop of `Table`: one row per cell of `xs`, each row pushed
as a normalized array, the rows collected into a normalized outer
array. -/
def tableGo (E : Ext) (f : Value) (bs : List Value) : List Value → List Value → Stack → StepRes
  | [], rows, st => .ok (.arr (E.normTy rows) rows :: st)
  | a :: more, rows, st =>
    match tableRow E f a bs [] st with
    | .ok (row, st2) => tableGo E f bs more (rows ++ [.arr (E.normTy row) row]) st2
    | .error (e, s) => .err e s

/-- `Value::coerce_array` as `Use` consumes it: the cells of an array, or
the value itself as a one-cell buffer. -/
def coerceCells : Value → List Value
  | .arr _ cells => cells
  | v => [v]

/-- The search of `Use`: the first function value among the cells whose
`FunctionId::Named` identity matches the name case-insensitively. -/
def useFind (E : Ext) (lower : String) (cells : List Value) : Option Value :=
  cells.find? fun v =>
    match v with
    | .fn id => (E.fname id).elim false (fun n => strToLower n == lower)
    | _ => false

/-- The `Use` arm: pop `lib`, then `name`, which must be a character
array; find the matching named function among `lib`'s cells and push
it. -/
def useRun (E : Ext) : Stack → StepRes
  | lib :: .arr .ch cs :: rest =>
    match useFind E (strToLower (charsOf cs)) (coerceCells lib) with
    | some v => .ok (v :: rest)
    | none => .err ("No function found for " ++ quoteStr (charsOf cs)) rest
  | _ :: _ :: rest => .err "Use name must be a string" rest
  | st => .err popMsg st.tail

/-- `Primitive::run`: the dispatcher.  Pervasive and array primitives
delegate to the kernel oracles through the `CallEnv` adapters; modifiers
drive the oracle `Ext.call`. -/
def runPrim (E : Ext) : Primitive → Stack → StepRes
  | .Pi, st => .ok (.num (.fin f64Pi) :: st)
  | .Infinity, st => .ok (.num .inf :: st)
  | .Nop, st => .ok st
  | .Not, st => monadicE E.not st
  | .Neg, st => monadicE E.neg st
  | .Abs, st => monadicE E.abs st
  | .Sign, st => monadicE E.sign st
  | .Sqrt, st => monadicE E.sqrt st
  | .Sin, st => monadicE E.sin st
  | .Cos, st => monadicE E.cos st
  | .Asin, st => monadicE E.asin st
  | .Acos, st => monadicE E.acos st
  | .Floor, st => monadicE E.floor st
  | .Ceil, st => monadicE E.ceil st
  | .Round, st => monadicE E.round st
  | .Eq, st => dyadicE E.is_eq st
  | .Ne, st => dyadicE E.is_ne st
  | .Lt, st => dyadicE E.is_lt st
  | .Le, st => dyadicE E.is_le st
  | .Gt, st => dyadicE E.is_gt st
  | .Ge, st => dyadicE E.is_ge st
  | .Add, st => dyadicE E.add st
  | .Sub, st => dyadicE E.sub st
  | .Mul, st => dyadicE E.mul st
  | .Div, st => dyadicE E.div st
  | .Mod, st => dyadicE E.modulus st
  | .Pow, st => dyadicE E.pow st
  | .Root, st => dyadicE E.root st
  | .Min, st => dyadicE E.min st
  | .Max, st => dyadicE E.max st
  | .Atan, st => dyadicE E.atan2 st
  | .Match, st => dyadicP (fun a b => .num (.fin (if a.beq b then 1 else 0))) st
  | .NoMatch, st => dyadicP (fun a b => .num (.fin (if a.beq b then 0 else 1))) st
  | .Join, st => dyadicE E.join st
  | .Reshape, st => dyadicE E.reshape st
  | .Transpose, st => monadicP E.transpose st
  | .Pick, st => dyadicE E.pick st
  | .Replicate, st => dyadicE E.replicate st
  | .Take, st => dyadicE E.take st
  | .Drop, st => dyadicE E.drop st
  | .Rotate, st => dyadicE E.rotate st
  | .Enclose, st => monadicP E.enclose st
  | .Normalize, st => monadicE E.normalize st
  | .Pair, st => dyadicP E.pair st
  | .Couple, st => dyadicE E.couple st
  | .Sort, st => monadicE E.sort st
  | .Grade, st => monadicE E.grade st
  | .Indices, st => monadicE E.indices st
  | .Select, st => dyadicE E.select st
  | .Windows, st => dyadicE E.windows st
  | .Classify, st => monadicE E.classify st
  | .Deduplicate, st => monadicE E.deduplicate st
  | .Member, st => dyadicP E.member st
  | .Group, st => dyadicE E.group st
  | .IndexOf, st => dyadicE E.index_of st
  | .Call, st => callTop E st
  | .Parse, st => monadicE E.parse_num st
  | .Unpack, st =>
    match st with
    | [] => .err popMsg []
    | v :: rest =>
      match v with
      | .arr _ cells => .ok (cells ++ rest)
      | v => .ok (v :: rest)
  | .Put, st => putE E.put st
  | .Dup, st => dupRun st
  | .Flip, st => flipRun st
  | .Over, st => overRun st
  | .Pop, st => popRun st
  | .Invert, st =>
    match st with
    | [] => .err popMsg []
    | f :: rest =>
      match f with
      | .fn id =>
        match E.inv id false with
        | .ok invId => callTop E (.fn invId :: rest)
        | .error e => .err e rest
      | _ => .err "Only functions can be inverted" rest
  | .Under, st =>
    match st with
    | f :: g :: rest =>
      match f, g with
      | .fn fid, .fn gid =>
        match E.inv fid true with
        | .error e => .err e rest
        | .ok invId =>
          match callTop E (.fn fid :: rest) with
          | .err e s => .err e s
          | .ok st2 =>
            match callTop E (.fn gid :: st2) with
            | .err e s => .err e s
            | .ok st3 => callTop E (.fn invId :: st3)
      | _, _ => .err "Only functions can be inverted" rest
    | st => .err popMsg st.tail
  | .Fold, st =>
    match st with
    | f :: acc :: xs :: rest =>
      match xs with
      | .arr _ cells => foldGo E f acc cells rest
      | xs => callTop E (f :: xs :: acc :: rest)
    | st => .err popMsg st.tail
  | .Reduce, st =>
    match st with
    | f :: xs :: rest =>
      match xs with
      | .arr _ cells =>
        match cells with
        | [] => .err "Cannot reduce empty array" rest
        | acc :: more => reduceGo E f acc more rest
      | xs => .ok (xs :: rest)
    | st => .err popMsg st.tail
  | .Each, st =>
    match st with
    | f :: xs :: rest =>
      match xs with
      | .arr _ cells => eachGo E f cells [] rest
      | xs => callTop E (f :: xs :: rest)
    | st => .err popMsg st.tail
  | .Cells, st =>
    match st with
    | f :: xs :: rest =>
      match xs with
      | .arr _ cells => eachGo E f cells [] rest
      | xs => callTop E (f :: xs :: rest)
    | st => .err popMsg st.tail
  | .Table, st =>
    match st with
    | f :: xs :: ys :: rest =>
      match xs, ys with
      | .arr _ acells, .arr _ bcells => tableGo E f bcells acells [] rest
      | .arr _ acells, y => tableGo E f [y] acells [] rest
      | x, .arr _ bcells => tableGo E f bcells [x] [] rest
      | x, y => callTop E (f :: x :: y :: rest)
    | st => .err popMsg st.tail
  | .Scan, st =>
    match st with
    | f :: xs :: rest =>
      match xs with
      | .arr ty cells =>
        match cells with
        | [] => .ok (.arr ty [] :: rest)
        | acc :: more => scanGo E f acc more [acc] rest
      | xs => .ok (xs :: rest)
    | st => .err popMsg st.tail
  | .Repeat, st =>
    match st with
    | f :: acc :: n :: rest =>
      match n.as_nat with
      | none => .err "Repetitions must be a natural number" rest
      | some k => repeatGo E f k acc rest
    | st => .err popMsg st.tail
  | .Try, st =>
    match st with
    | f :: handler :: rest =>
      match callTop E (f :: rest) with
      | .ok st2 => .ok st2
      | .err e st2 =>
        callTop E (handler :: strVal e :: truncate rest.length st2)
    | st => .err popMsg st.tail
  | .Assert, st => assertRun E st
  | .Len, st => monadicP (fun v => .num (.fin (E.vlen v))) st
  | .Rank, st => monadicP (fun v => .num (.fin (E.vrank v))) st
  | .Shape, st =>
    monadicP (fun v => .arr .num ((E.vshape v).map (fun i => .num (.fin i)))) st
  | .Range, st => monadicE E.range st
  | .Reverse, st => monadicP E.reverse st
  | .Deshape, st => monadicP E.deshape st
  | .First, st => monadicE E.first st
  | .String, st => monadicP (fun v => strVal (E.toStr v)) st
  | .Use, st => useRun E st
  | .Io op, st => E.ioRun op st

/-- A concrete instantiation of the external collaborators, used to
evaluate the dispatcher on closed inputs: kernels return their first
operand, a call leaves the stack unchanged, an inverse returns the same
handle, the I/O catalog is empty. -/
def ext0 : Ext where
  not := fun v => .ok v
  neg := fun v => .ok v
  abs := fun v => .ok v
  sign := fun v => .ok v
  sqrt := fun v => .ok v
  sin := fun v => .ok v
  cos := fun v => .ok v
  asin := fun v => .ok v
  acos := fun v => .ok v
  floor := fun v => .ok v
  ceil := fun v => .ok v
  round := fun v => .ok v
  range := fun v => .ok v
  first := fun v => .ok v
  normalize := fun v => .ok v
  sort := fun v => .ok v
  grade := fun v => .ok v
  indices := fun v => .ok v
  classify := fun v => .ok v
  deduplicate := fun v => .ok v
  parse_num := fun v => .ok v
  transpose := fun v => v
  enclose := fun v => v
  reverse := fun v => v
  deshape := fun v => v
  is_eq := fun a _ => .ok a
  is_ne := fun a _ => .ok a
  is_lt := fun a _ => .ok a
  is_le := fun a _ => .ok a
  is_gt := fun a _ => .ok a
  is_ge := fun a _ => .ok a
  add := fun a _ => .ok a
  sub := fun a _ => .ok a
  mul := fun a _ => .ok a
  div := fun a _ => .ok a
  modulus := fun a _ => .ok a
  pow := fun a _ => .ok a
  root := fun a _ => .ok a
  min := fun a _ => .ok a
  max := fun a _ => .ok a
  atan2 := fun a _ => .ok a
  join := fun a _ => .ok a
  reshape := fun a _ => .ok a
  pick := fun a _ => .ok a
  replicate := fun a _ => .ok a
  take := fun a _ => .ok a
  drop := fun a _ => .ok a
  rotate := fun a _ => .ok a
  couple := fun a _ => .ok a
  select := fun a _ => .ok a
  windows := fun a _ => .ok a
  group := fun a _ => .ok a
  index_of := fun a _ => .ok a
  pair := fun a _ => a
  member := fun a _ => a
  put := fun i _ _ => .ok i
  vlen := fun _ => 0
  vrank := fun _ => 0
  vshape := fun _ => []
  toStr := fun _ => ""
  call := fun _ st => .ok st
  inv := fun i _ => .ok i
  fname := fun _ => none
  normTy := fun _ => .num
  ioArgs := fun _ => 0
  ioOutputs := fun _ => none
  ioName := fun _ => ""
  ioFromName := fun _ => none
  ioRun := fun _ st => .ok st

/-- Oracles where a called function replaces its two operands by the
pair `[top, second]`, making the argument order observable. -/
def extProbe : Ext :=
  { ext0 with
    call := fun _ st =>
      match st with
      | a :: b :: r => .ok (.arr .value [a, b] :: r)
      | st => .err "type mismatch" st }

/-- Oracles where function `0` errors after consuming the whole stack
and function `1` is a handler of arity 1 returning 1 result. -/
def extTryCex : Ext :=
  { ext0 with
    call := fun id st =>
      if id == 0 then .err "boom" []
      else
        match st with
        | _ :: r => .ok (.num (.fin 0) :: r)
        | [] => .err popMsg [] }

/-- Oracles where function `0` errors leaving the stack untouched and
function `1` is a handler of arity 1 returning 1 result. -/
def extTryWit : Ext :=
  { ext0 with
    call := fun id st =>
      if id == 0 then .err "oops" st
      else
        match st with
        | _ :: r => .ok (.num (.fin 1) :: r)
        | [] => .err popMsg [] }

/-- Oracles where every call fails with Repeat's own diagnostic, showing
that the message does not identify the failed natural-number check. -/
def extRepCex : Ext :=
  { ext0 with call := fun _ st => .err "Repetitions must be a natural number" st }

/-- Oracles where computing any function inverse fails. -/
def extInvErr : Ext :=
  { ext0 with inv := fun _ _ => .error "no inverse" }

/-- C1, counterexample: the inverse table is not an involution on its
domain — `inverse(Pick) = Some(Put)` yet `inverse(Put) = None` (the
source `match` has no `Put` arm), so Pick and Put are not a symmetric
pair. -/
theorem C1_cex :
    Primitive.inverse .Pick = some .Put ∧ Primitive.inverse .Put = none :=
  ⟨rfl, rfl⟩

/-- C1, amended: the inverse table is an involution away from `Sin`,
`Cos` and `Pick`; those three entries are one-directional — `Sin↦Asin`,
`Cos↦Acos`, `Pick↦Put` with `inverse(Asin) = inverse(Acos) =
inverse(Put) = None`. -/
theorem C1_amended :
    (∀ p q : Primitive, p ≠ .Sin → p ≠ .Cos → p ≠ .Pick →
      Primitive.inverse p = some q → Primitive.inverse q = some p) ∧
    Primitive.inverse .Sin = some .Asin ∧ Primitive.inverse .Asin = none ∧
    Primitive.inverse .Cos = some .Acos ∧ Primitive.inverse .Acos = none ∧
    Primitive.inverse .Pick = some .Put ∧ Primitive.inverse .Put = none := by
  refine ⟨fun p q h1 h2 h3 h => ?_, rfl, rfl, rfl, rfl, rfl, rfl⟩
  cases p <;> first
    | exact absurd rfl h1
    | exact absurd rfl h2
    | exact absurd rfl h3
    | exact Option.noConfusion h
    | (obtain rfl := Option.some.inj h; rfl)

/-- C1, witness: the involution part of the amended claim applied to
`Add`, whose inverse `Sub` maps back to `Add`. -/
theorem C1_witness : Primitive.inverse .Sub = some .Add :=
  C1_amended.1 .Add .Sub (fun h => Primitive.noConfusion h)
    (fun h => Primitive.noConfusion h) (fun h => Primitive.noConfusion h) rfl

/-- C4: Reduce's base cases — a non-array operand is pushed back
unchanged, a singleton array yields its single cell, and an empty array
raises "Cannot reduce empty array"; the result is the same for every
oracle record, so the function operand is never invoked. -/
theorem C4_reduce_base : ∀ (E : Ext) (f : Value) (st : Stack),
    (∀ v : Value, v.is_array = false → runPrim E .Reduce (f :: v :: st) = .ok (v :: st)) ∧
    (∀ (ty : Ty) (x : Value), runPrim E .Reduce (f :: .arr ty [x] :: st) = .ok (x :: st)) ∧
    (∀ ty : Ty, runPrim E .Reduce (f :: .arr ty [] :: st) =
      .err "Cannot reduce empty array" st) := by
  intro E f st
  refine ⟨fun v hv => ?_, fun ty x => rfl, fun ty => rfl⟩
  cases v with
  | arr ty cells => exact Bool.noConfusion hv
  | num n => rfl
  | ch c => rfl
  | fn id => rfl

/-- C4, witness: Reduce over the scalar `3` pushes `3` back. -/
theorem C4_witness :
    runPrim ext0 .Reduce [.fn 0, .num (.fin 3)] = .ok [.num (.fin 3)] :=
  (C4_reduce_base ext0 (.fn 0) []).1 (.num (.fin 3)) rfl

/-- C10: Under pops `f` and `g` and computes `f`'s under-mode inverse
before invoking anything — when the inverse computation fails the error
propagates with both operands popped, the remaining stack untouched, and
the result is the same for every call oracle, so neither function is
ever invoked. -/
theorem C10_under_inverse_first : ∀ (E : Ext) (fid gid : Nat) (rest : Stack) (e : String),
    E.inv fid true = .error e →
    runPrim E .Under (.fn fid :: .fn gid :: rest) = .err e rest := by
  intro E fid gid rest e h
  simp only [runPrim, h]

/-- C10, witness: Under with a failing inverse on a concrete stack. -/
theorem C10_witness :
    runPrim extInvErr .Under [.fn 0, .fn 1, .num (.fin 9)] =
      .err "no inverse" [.num (.fin 9)] :=
  C10_under_inverse_first extInvErr 0 1 [.num (.fin 9)] "no inverse" rfl

/-- C5: Reduce and Fold push their per-iteration operands in opposite
orders.  Each Reduce iteration calls the function on
`f :: acc :: cell :: st` (accumulator on top once `f` is popped), each
Fold iteration on `f :: cell :: acc :: st` (cell on top); concretely,
with a call oracle pairing `[top, second]`, Reduce(pair) over `[10, 3]`
yields `[10, 3]` (accumulator `10` on top) while Fold(pair) with
accumulator `10` over `[3]` yields `[3, 10]` (cell `3` on top). -/
theorem C5_operand_order :
    (∀ (E : Ext) (f acc cell : Value) (cells : List Value) (st : Stack),
      reduceGo E f acc (cell :: cells) st =
        (match callTop E (f :: acc :: cell :: st) with
         | .ok (r :: st2) => reduceGo E f r cells st2
         | .ok [] => .err popMsg []
         | .err e s => .err e s)) ∧
    (∀ (E : Ext) (f acc cell : Value) (cells : List Value) (st : Stack),
      foldGo E f acc (cell :: cells) st =
        (match callTop E (f :: cell :: acc :: st) with
         | .ok (r :: st2) => foldGo E f r cells st2
         | .ok [] => .err popMsg []
         | .err e s => .err e s)) ∧
    runPrim extProbe .Reduce [.fn 0, .arr .num [.num (.fin 10), .num (.fin 3)]] =
      .ok [.arr .value [.num (.fin 10), .num (.fin 3)]] ∧
    runPrim extProbe .Fold [.fn 0, .num (.fin 10), .arr .num [.num (.fin 3)]] =
      .ok [.arr .value [.num (.fin 3), .num (.fin 10)]] :=
  ⟨fun _ _ _ _ _ _ => rfl, fun _ _ _ _ _ _ => rfl, rfl, rfl⟩

/-- When Scan's loop succeeds it pushes one array whose cell buffer
extends the already-scanned prefix by one result per remaining cell and
keeps the buffer's first element. -/
theorem scanGo_shape (E : Ext) (f : Value) :
    ∀ (cells : List Value) (acc : Value) (scanned : List Value) (st out : Stack),
      scanned ≠ [] →
      scanGo E f acc cells scanned st = .ok out →
      ∃ l rest, out = .arr (E.normTy l) l :: rest ∧
        l.length = scanned.length + cells.length ∧ l.head? = scanned.head? := by
  intro cells
  induction cells with
  | nil =>
    intro acc scanned st out hne h
    cases h
    exact ⟨scanned, st, rfl, by simp, rfl⟩
  | cons c cs ih =>
    intro acc scanned st out hne h
    unfold scanGo at h
    cases hc : callTop E (f :: acc :: c :: st) with
    | ok st2 =>
      rw [hc] at h
      cases st2 with
      | nil => exact StepRes.noConfusion h
      | cons r st3 =>
        obtain ⟨l, rest, h1, h2, h3⟩ := ih r (scanned ++ [r]) st3 out (by simp) h
        refine ⟨l, rest, h1, ?_, ?_⟩
        · simp only [List.length_append, List.length_singleton, List.length_cons,
            List.length_nil] at h2 ⊢
          omega
        · rw [h3]
          cases scanned with
          | nil => exact absurd rfl hne
          | cons a t => rfl
    | err e s => rw [hc] at h; exact StepRes.noConfusion h

/-- C6: Scan — on a non-empty array a successful run pushes an array
with exactly as many cells as the input whose first cell is the input's
first cell; on an empty array it pushes an empty array of the same
element type; on a non-array it pushes the operand back; the latter two
results are oracle-independent, so the function is never invoked. -/
theorem C6_scan : ∀ (E : Ext) (f : Value) (st : Stack),
    (∀ v : Value, v.is_array = false → runPrim E .Scan (f :: v :: st) = .ok (v :: st)) ∧
    (∀ ty : Ty, runPrim E .Scan (f :: .arr ty [] :: st) = .ok (.arr ty [] :: st)) ∧
    (∀ (ty : Ty) (c : Value) (cs : List Value) (out : Stack),
      runPrim E .Scan (f :: .arr ty (c :: cs) :: st) = .ok out →
      ∃ l rest, out = .arr (E.normTy l) l :: rest ∧
        l.length = (c :: cs).length ∧ l.head? = some c) := by
  intro E f st
  refine ⟨fun v hv => ?_, fun ty => rfl, fun ty c cs out h => ?_⟩
  · cases v with
    | arr ty cells => exact Bool.noConfusion hv
    | num n => rfl
    | ch c => rfl
    | fn id => rfl
  · obtain ⟨l, rest, h1, h2, h3⟩ := scanGo_shape E f cs c [c] st out (by simp) h
    refine ⟨l, rest, h1, ?_, h3⟩
    simp only [List.length_singleton, List.length_cons, List.length_nil] at h2 ⊢
    omega

/-- C6, witness: Scan with the identity call oracle over `[1, 2]`
produces a two-cell array headed by `1`. -/
theorem C6_witness : ∃ (l : List Value) (rest : Stack),
    ([Value.arr .num [.num (.fin 1), .num (.fin 1)], .num (.fin 2)] : Stack) =
      .arr (ext0.normTy l) l :: rest ∧
    l.length = 2 ∧ l.head? = some (.num (.fin 1)) :=
  (C6_scan ext0 (.fn 0) []).2.2 .num (.num (.fin 1)) [.num (.fin 2)]
    [.arr .num [.num (.fin 1), .num (.fin 1)], .num (.fin 2)] rfl

/-- C7, counterexample: Repeat can fail with "Repetitions must be a
natural number" even though `as_nat(n)` is defined — here `n = 1` but
the called function raises that very message itself, so the
"if and only if" of the claim fails. -/
theorem C7_cex :
    runPrim extRepCex .Repeat [.fn 0, .num (.fin 5), .num (.fin 1)] =
      .err "Repetitions must be a natural number" [.num (.fin 5)] ∧
    Value.as_nat (.num (.fin 1)) = some 1 :=
  ⟨rfl, rfl⟩

/-- C7, amended: if `as_nat(n)` is undefined, Repeat fails with
"Repetitions must be a natural number" without invoking `f` (the result
is oracle-independent); when `as_nat(n) = 0`, it pushes the accumulator
back unchanged, invoking `f` zero times. -/
theorem C7_amended : ∀ (E : Ext) (f acc n : Value) (st : Stack),
    (Value.as_nat n = none →
      runPrim E .Repeat (f :: acc :: n :: st) =
        .err "Repetitions must be a natural number" st) ∧
    (Value.as_nat n = some 0 →
      runPrim E .Repeat (f :: acc :: n :: st) = .ok (acc :: st)) := by
  intro E f acc n st
  constructor
  · intro h; simp only [runPrim, h]
  · intro h; simp only [runPrim, h, repeatGo]

/-- C7, witness: a character count is rejected without calling anything;
a zero count pushes the accumulator back. -/
theorem C7_witness :
    runPrim ext0 .Repeat [.fn 0, .num (.fin 7), .ch 'x'] =
      .err "Repetitions must be a natural number" [] ∧
    runPrim ext0 .Repeat [.fn 0, .num (.fin 7), .num (.fin 0)] =
      .ok [.num (.fin 7)] :=
  ⟨(C7_amended ext0 (.fn 0) (.num (.fin 7)) (.ch 'x') []).1 rfl,
   (C7_amended ext0 (.fn 0) (.num (.fin 7)) (.num (.fin 0)) []).2 rfl⟩

/-- C3, counterexample: the claimed depth formula fails when the
erroring `f` consumes values beneath Try's snapshot — here `f` errors
with the whole stack consumed and the arity-1 handler yields one value,
so the final depth is 1, not `depth_before − 2 + 1 = 2`. -/
theorem C3_cex :
    runPrim extTryCex .Try [.fn 0, .fn 1, .num (.fin 5)] = .ok [.num (.fin 0)] ∧
    extTryCex.call 0 [.num (.fin 5)] = .err "boom" [] ∧
    extTryCex.call 1 [strVal "boom"] = .ok [.num (.fin 0)] ∧
    ([Value.num (.fin 0)] : Stack).length ≠
      ([Value.fn 0, Value.fn 1, Value.num (.fin 5)] : Stack).length - 2 + 1 :=
  ⟨rfl, rfl, rfl, by decide⟩

/-- The length of a truncated stack is the requested size whenever the
stack is at least that deep. -/
theorem truncate_length {n : Nat} {st : Stack} (h : n ≤ st.length) :
    (truncate n st).length = n := by
  simp only [truncate, List.length_drop]
  omega

/-- C3, amended: Try pops `f` and `handler`, snapshots the remaining
depth, and calls `f`; on success the stack is exactly as `f` produced
it; when `f` errors *leaving at least the snapshot depth*, the stack is
truncated to the snapshot, the message and handler are pushed, and an
arity-1/1-result handler leaves depth `depth_before − 2 + 1`.  (Without
the depth proviso the formula fails: truncation cannot restore values
`f` consumed from beneath the snapshot.) -/
theorem C3_amended : ∀ (E : Ext) (fid hid : Nat) (rest : Stack),
    (∀ st2, E.call fid rest = .ok st2 →
      runPrim E .Try (.fn fid :: .fn hid :: rest) = .ok st2) ∧
    (∀ (e : String) (stE : Stack) (w : Value),
      E.call fid rest = .err e stE →
      rest.length ≤ stE.length →
      E.call hid (strVal e :: truncate rest.length stE) =
        .ok (w :: truncate rest.length stE) →
      runPrim E .Try (.fn fid :: .fn hid :: rest) =
        .ok (w :: truncate rest.length stE) ∧
      (w :: truncate rest.length stE).length =
        (Value.fn fid :: Value.fn hid :: rest).length - 2 + 1) := by
  intro E fid hid rest
  constructor
  · intro st2 h
    simp only [runPrim, callTop, h]
  · intro e stE w hf hlen hh
    refine ⟨?_, ?_⟩
    · simp only [runPrim, callTop, hf, hh]
    · have ht := truncate_length hlen
      simp only [List.length_cons]
      omega

/-- C3, witness: an erroring `f` that leaves the stack untouched and an
arity-1 handler give final depth `3 − 2 + 1 = 2`. -/
theorem C3_witness :
    runPrim extTryWit .Try [.fn 0, .fn 1, .num (.fin 9)] =
      .ok [.num (.fin 1), .num (.fin 9)] ∧
    ([Value.num (.fin 1), .num (.fin 9)] : Stack).length =
      ([Value.fn 0, .fn 1, .num (.fin 9)] : Stack).length - 2 + 1 :=
  (C3_amended extTryWit 0 1 [.num (.fin 9)]).2 "oops" [.num (.fin 9)]
    (.num (.fin 1)) rfl (by decide) rfl

/-- C9: the glyph tables round-trip — whenever a primitive has a Unicode
glyph, `from_unicode` maps it back to that primitive, and whenever it
has an ASCII token, `from_simple` maps it back; consequently no two
primitives share a glyph or a token. -/
theorem C9_glyph_roundtrip : ∀ p : Primitive,
    (∀ c, Primitive.unicode p = some c → Primitive.from_unicode c = some p) ∧
    (∀ t, Primitive.ascii p = some t → Primitive.from_simple t = some p) := by
  intro p
  constructor
  · intro c h
    cases p <;> first
      | exact Option.noConfusion h
      | (obtain rfl := Option.some.inj h; rfl)
  · intro t h
    cases p <;> first
      | exact Option.noConfusion h
      | (obtain rfl := Option.some.inj h; rfl)

/-- C9, witness: the round trips at `Dup`'s glyph and `Mul`'s token. -/
theorem C9_witness :
    Primitive.from_unicode '.' = some .Dup ∧
    Primitive.from_simple .Star = some .Mul :=
  ⟨(C9_glyph_roundtrip .Dup).1 '.' rfl, (C9_glyph_roundtrip .Mul).2 .Star rfl⟩

/-- C8: `from_name`'s prefix-resolution rule at the specified probes —
assuming the external I/O catalog does not claim these names, "rev"
resolves to Reverse (unique prefix), "re" is rejected (shorter than 3),
"resh" resolves to Reshape (unique prefix), and "pi" resolves through
the special short-token check to Pi. -/
theorem C8_from_name : ∀ E : Ext,
    E.ioFromName "rev" = none → E.ioFromName "re" = none →
    E.ioFromName "resh" = none → E.ioFromName "pi" = none →
    fromName E "rev" = some .Reverse ∧ fromName E "re" = none ∧
    fromName E "resh" = some .Reshape ∧ fromName E "pi" = some .Pi := by
  intro E h1 h2 h3 h4
  refine ⟨?_, ?_, ?_, ?_⟩
  · unfold fromName fromNameLower
    rw [show strToLower "rev" = "rev" from by rfl, h1]
    rfl
  · unfold fromName fromNameLower
    rw [show strToLower "re" = "re" from by rfl, h2]
    rfl
  · unfold fromName fromNameLower
    rw [show strToLower "resh" = "resh" from by rfl, h3]
    rfl
  · unfold fromName fromNameLower
    rw [show strToLower "pi" = "pi" from by rfl, h4]
    rfl

/-- C8, witness: the probes with an empty I/O catalog. -/
theorem C8_witness :
    fromName ext0 "rev" = some .Reverse ∧ fromName ext0 "re" = none ∧
    fromName ext0 "resh" = some .Reshape ∧ fromName ext0 "pi" = some .Pi :=
  C8_from_name ext0 rfl rfl rfl rfl

/-- A successful fallible monadic adapter preserves the stack length. -/
theorem len_monadicE {k : Value → Except String Value} {st st' : Stack}
    (h : monadicE k st = .ok st') : st'.length = st.length := by
  cases st with
  | nil => exact StepRes.noConfusion h
  | cons v rest =>
    have h' : (match k v with
               | Except.ok r => StepRes.ok (r :: rest)
               | Except.error e => StepRes.err e rest) = .ok st' := h
    cases hk : k v with
    | ok r =>
      rw [hk] at h'
      obtain rfl := (StepRes.ok.inj h').symm
      rfl
    | error e => rw [hk] at h'; exact StepRes.noConfusion h'

/-- A successful infallible monadic adapter preserves the stack length. -/
theorem len_monadicP {k : Value → Value} {st st' : Stack}
    (h : monadicP k st = .ok st') : st'.length = st.length := by
  cases st with
  | nil => exact StepRes.noConfusion h
  | cons v rest =>
    obtain rfl := (StepRes.ok.inj h).symm
    rfl

/-- A successful fallible dyadic adapter shrinks the stack by one. -/
theorem len_dyadicE {k : Value → Value → Except String Value} {st st' : Stack}
    (h : dyadicE k st = .ok st') : st.length = st'.length + 1 := by
  match st with
  | [] => exact StepRes.noConfusion h
  | [a] => exact StepRes.noConfusion h
  | a :: b :: rest =>
    have h' : (match k a b with
               | Except.ok r => StepRes.ok (r :: rest)
               | Except.error e => StepRes.err e rest) = .ok st' := h
    cases hk : k a b with
    | ok r =>
      rw [hk] at h'
      obtain rfl := (StepRes.ok.inj h').symm
      rfl
    | error e => rw [hk] at h'; exact StepRes.noConfusion h'

/-- A successful infallible dyadic adapter shrinks the stack by one. -/
theorem len_dyadicP {k : Value → Value → Value} {st st' : Stack}
    (h : dyadicP k st = .ok st') : st.length = st'.length + 1 := by
  match st with
  | [] => exact StepRes.noConfusion h
  | [a] => exact StepRes.noConfusion h
  | a :: b :: rest =>
    obtain rfl := (StepRes.ok.inj h).symm
    rfl

/-- A successful `Put` shrinks the stack by two. -/
theorem len_putE {k : Value → Value → Value → Except String Value} {st st' : Stack}
    (h : putE k st = .ok st') : st.length = st'.length + 2 := by
  match st with
  | [] => exact StepRes.noConfusion h
  | [i] => exact StepRes.noConfusion h
  | [i, v] => exact StepRes.noConfusion h
  | i :: v :: a :: rest =>
    have h' : (match k i v a with
               | Except.ok r => StepRes.ok (r :: rest)
               | Except.error e => StepRes.err e rest) = .ok st' := h
    cases hk : k i v a with
    | ok r =>
      rw [hk] at h'
      obtain rfl := (StepRes.ok.inj h').symm
      rfl
    | error e => rw [hk] at h'; exact StepRes.noConfusion h'

/-- A successful `Dup` grows the stack by one. -/
theorem len_dupRun {st st' : Stack} (h : dupRun st = .ok st') :
    st'.length = st.length + 1 := by
  cases st with
  | nil => exact StepRes.noConfusion h
  | cons v rest =>
    obtain rfl := (StepRes.ok.inj h).symm
    rfl

/-- A successful `Flip` preserves the stack length. -/
theorem len_flipRun {st st' : Stack} (h : flipRun st = .ok st') :
    st'.length = st.length := by
  match st with
  | [] => exact StepRes.noConfusion h
  | [a] => exact StepRes.noConfusion h
  | a :: b :: rest =>
    obtain rfl := (StepRes.ok.inj h).symm
    rfl

/-- A successful `Over` grows the stack by one. -/
theorem len_overRun {st st' : Stack} (h : overRun st = .ok st') :
    st'.length = st.length + 1 := by
  match st with
  | [] => exact StepRes.noConfusion h
  | [a] => exact StepRes.noConfusion h
  | a :: b :: rest =>
    obtain rfl := (StepRes.ok.inj h).symm
    rfl

/-- A successful `Pop` shrinks the stack by one. -/
theorem len_popRun {st st' : Stack} (h : popRun st = .ok st') :
    st.length = st'.length + 1 := by
  cases st with
  | nil => exact StepRes.noConfusion h
  | cons v rest =>
    obtain rfl := (StepRes.ok.inj h).symm
    rfl

/-- `Assert`'s condition test accepts the exact number `1`. -/
theorem truthy_one : truthyNum (.fin 1) = true := by
  simp only [truthyNum, decide_eq_true_eq]
  norm_num

/-- C2, counterexample: the declared arities of `Assert` are 2 inputs
and 1 output, yet a successful run on a two-value stack (message `"ok"`,
condition `1`) leaves the empty stack — the net delta is −2, not
`outputs − args = −1`. -/
theorem C2_cex :
    Primitive.args ext0 .Assert = some 2 ∧
    Primitive.outputs ext0 .Assert = some 1 ∧
    runPrim ext0 .Assert [strVal "ok", .num (.fin 1)] = .ok [] ∧
    ([] : Stack).length ≠ ([strVal "ok", Value.num (.fin 1)] : Stack).length - 2 + 1 := by
  refine ⟨rfl, rfl, ?_, by decide⟩
  show assertRun ext0 [strVal "ok", .num (.fin 1)] = .ok []
  simp [assertRun, truthy_one]

/-- C2, amended: for every catalog (non-`Io`) primitive with both
`args` and `outputs` defined **except `Nop`, `Assert` and `Use`**, a
successful run on a sufficiently deep stack changes the stack size by
exactly `outputs − args`.  The exceptions: `Nop` (declared 0→1) leaves
the stack unchanged; `Assert` (declared 2→1) pops its two operands and
pushes nothing; `Use` (declared 1→1) pops two operands and pushes one. -/
theorem C2_amended :
    (∀ (E : Ext) (p : Primitive),
      (∀ op, p ≠ .Io op) → p ≠ .Nop → p ≠ .Assert → p ≠ .Use →
      ∀ (a o : Nat) (st st' : Stack),
        Primitive.args E p = some a → Primitive.outputs E p = some o →
        a ≤ st.length → runPrim E p st = .ok st' →
        (st'.length : ℤ) = (st.length : ℤ) - a + o) ∧
    (∀ (E : Ext) (st : Stack), runPrim E .Nop st = .ok st) ∧
    (∀ (E : Ext) (msg cond : Value) (rest st' : Stack),
      runPrim E .Assert (msg :: cond :: rest) = .ok st' → st' = rest) ∧
    (∀ (E : Ext) (lib nameV : Value) (rest st' : Stack),
      runPrim E .Use (lib :: nameV :: rest) = .ok st' → st'.length = rest.length + 1) := by
  refine ⟨?_, fun E st => rfl, ?_, ?_⟩
  · intro E p hio hnop hassert huse a o st st' ha ho hd hrun
    cases p <;> first
      | exact absurd rfl (hio _)
      | exact absurd rfl hnop
      | exact absurd rfl hassert
      | exact absurd rfl huse
      | exact Option.noConfusion ha
      | exact Option.noConfusion ho
      | (obtain rfl := Option.some.inj ha
         obtain rfl := Option.some.inj ho
         first
           | (have hl := len_monadicE hrun; omega)
           | (have hl := len_monadicP hrun; omega)
           | (have hl := len_dyadicE hrun; omega)
           | (have hl := len_dyadicP hrun; omega)
           | (have hl := len_putE hrun; omega)
           | (have hl := len_dupRun hrun; omega)
           | (have hl := len_overRun hrun; omega)
           | (have hl := len_flipRun hrun; omega)
           | (have hl := len_popRun hrun; omega)
           | (obtain rfl := (StepRes.ok.inj hrun).symm
              simp only [List.length_cons]
              omega))
  · intro E msg cond rest st' h
    cases cond with
    | num n =>
      have h' : (if truthyNum n then StepRes.ok rest
                 else StepRes.err (E.toStr msg) rest) = .ok st' := h
      cases htr : truthyNum n with
      | true =>
        rw [htr] at h'
        simp only [if_true] at h'
        exact (StepRes.ok.inj h').symm
      | false =>
        rw [htr] at h'
        exact StepRes.noConfusion h'
    | ch c => exact StepRes.noConfusion h
    | fn id => exact StepRes.noConfusion h
    | arr ty cells => exact StepRes.noConfusion h
  · intro E lib nameV rest st' h
    cases nameV with
    | arr ty cs =>
      cases ty with
      | ch =>
        have h' : (match useFind E (strToLower (charsOf cs)) (coerceCells lib) with
                   | some v => StepRes.ok (v :: rest)
                   | none => StepRes.err
                       ("No function found for " ++ quoteStr (charsOf cs)) rest) =
            .ok st' := h
        cases hf : useFind E (strToLower (charsOf cs)) (coerceCells lib) with
        | some v =>
          rw [hf] at h'
          obtain rfl := (StepRes.ok.inj h').symm
          rfl
        | none => rw [hf] at h'; exact StepRes.noConfusion h'
      | num => exact StepRes.noConfusion h
      | value => exact StepRes.noConfusion h
    | num n => exact StepRes.noConfusion h
    | ch c => exact StepRes.noConfusion h
    | fn id => exact StepRes.noConfusion h

/-- C2, witness: the delta law at `Flip` (2→2) on a two-value stack. -/
theorem C2_witness :
    (([Value.num (.fin 2), Value.num (.fin 1)] : Stack).length : ℤ) =
      (([Value.num (.fin 1), Value.num (.fin 2)] : Stack).length : ℤ) - 2 + 2 :=
  C2_amended.1 ext0 .Flip (fun op h => Primitive.noConfusion h)
    (fun h => Primitive.noConfusion h) (fun h => Primitive.noConfusion h)
    (fun h => Primitive.noConfusion h) 2 2 [.num (.fin 1), .num (.fin 2)]
    [.num (.fin 2), .num (.fin 1)] rfl rfl (by decide) rfl

end Uiua
